import Mathlib

/-!
Verification development for the ElectionMap repository
(`scripts/scrape_votes.py`, `scripts/build_map.py`).

The Python sources are shallowly embedded: Python `str` values become
`String`/`List Char`, JSON objects become insertion-ordered association
lists, `dict.get(k, d)` becomes `Option.getD`, nullable JSON fields become
`Option`, and Python float division for coalition ratios and percentage
formatting is modelled with exact rational arithmetic (`ℚ`).  Character
level operations (`str.strip`, `str.lower`, `in`, `str.replace`,
`re.sub`) are modelled on ASCII, matching CPython behaviour on the ASCII
inputs the pipeline handles.
-/

namespace ElectionMap

/-! ### Python string primitives -/

/-- The ASCII whitespace characters recognised by Python's `str.strip`
and the `\s` regex class. -/
def pyWs (c : Char) : Bool :=
  c = ' ' || c = '\t' || c = '\n' || c = '\r' || c = '\x0b' || c = '\x0c'

/-- `str.strip()` on a character list: drop whitespace from both ends. -/
def pyStripChars (l : List Char) : List Char :=
  ((l.dropWhile pyWs).reverse.dropWhile pyWs).reverse

/-- `str.strip()` on a `String`. -/
def pyStrip (s : String) : String := ⟨pyStripChars s.toList⟩

/-- `str.lower()` on one character (ASCII case mapping). -/
def pyLowerChar (c : Char) : Char :=
  if 65 ≤ c.toNat ∧ c.toNat ≤ 90 then Char.ofNat (c.toNat + 32) else c

/-- `str.lower()` on a character list. -/
def pyLowerChars (l : List Char) : List Char := l.map pyLowerChar

/-- `str.lower()` on a `String`. -/
def pyLower (s : String) : String := ⟨pyLowerChars s.toList⟩

/-- Position of the first occurrence of `pat` in `l` (`str.find` with the
result restricted to a found position), as an offset into `l`. -/
def firstPrefixPos (pat : List Char) : List Char → Option Nat
  | [] => if pat.isPrefixOf ([] : List Char) then some 0 else none
  | c :: cs =>
    if pat.isPrefixOf (c :: cs) then some 0
    else (firstPrefixPos pat cs).map (· + 1)

/-- Python's substring containment test `pat in l`. -/
def containsSub (pat l : List Char) : Bool := (firstPrefixPos pat l).isSome

/-- Worker for `str.replace(pat, repl)`.  `skip > 0` means the scanner is
still inside a matched occurrence whose replacement has already been
emitted, so the next `skip` characters are consumed silently (this keeps
the recursion structural in the scanned list). -/
def replaceAllGo (pat repl : List Char) : Nat → List Char → List Char
  | _, [] => []
  | skip + 1, _ :: cs => replaceAllGo pat repl skip cs
  | 0, c :: cs =>
    if pat.isPrefixOf (c :: cs) then
      repl ++ replaceAllGo pat repl (pat.length - 1) cs
    else c :: replaceAllGo pat repl 0 cs

/-- `str.replace(pat, repl)`: replace every non-overlapping occurrence of
`pat`, scanning left to right.  (The pipeline only calls this with
non-empty patterns; an empty pattern is passed through unchanged.) -/
def replaceAll (pat repl : List Char) (s : List Char) : List Char :=
  if pat.isEmpty then s else replaceAllGo pat repl 0 s

/-- `str.replace(pat, repl, 1)`: replace only the first occurrence. -/
def replaceFirst (pat repl : List Char) : List Char → List Char
  | [] => []
  | c :: cs =>
    if pat.isPrefixOf (c :: cs) then repl ++ (c :: cs).drop pat.length
    else c :: replaceFirst pat repl cs

/-- Characters kept by `re.sub(r"[^a-z0-9\- ]", '', ...)` in
`normalize_seat_name`. -/
def seatNameKeep (c : Char) : Bool :=
  (97 ≤ c.toNat && c.toNat ≤ 122) || (48 ≤ c.toNat && c.toNat ≤ 57) ||
    c = '-' || c = ' '

/-- Worker for `re.sub(r"\s+", ' ', ...)`: the flag records whether the
previous character was whitespace (in which case further whitespace is
absorbed into the single space already emitted). -/
def collapseWsGo : Bool → List Char → List Char
  | _, [] => []
  | prevWs, c :: cs =>
    if pyWs c then
      if prevWs then collapseWsGo true cs else ' ' :: collapseWsGo true cs
    else c :: collapseWsGo false cs

/-- `re.sub(r"\s+", ' ', ...)`: collapse each maximal whitespace run to a
single space. -/
def collapseWs (l : List Char) : List Char := collapseWsGo false l

/-! ### `build_map.normalize_seat_name` -/

/-- The fixed spelling-variant substitution table of
`normalize_seat_name`, in source order. -/
def seatSubs : List (List Char × List Char) :=
  [("chattogram".toList, "chittagong".toList),
   ("barishal".toList, "barisal".toList),
   ("chapai nawabganj".toList, "chapai nababganj".toList),
   ("jhalakathi".toList, "jhalokathi".toList),
   ("moulvibazar".toList, "maulvibazar".toList),
   ("netrokona".toList, "netrakona".toList),
   ("khagrachhari".toList, "khagrachari".toList)]

/-- The chain of `norm.replace(...)` calls in `normalize_seat_name`. -/
def applySeatSubs (l : List Char) : List Char :=
  seatSubs.foldl (fun acc pr => replaceAll pr.1 pr.2 acc) l

/-- The hill-district branch of `normalize_seat_name`: if the name starts
with `"parbatya "`, remove that first occurrence and, when no `'-'`
remains, append `"-1"`. -/
def parbatyaStep (l : List Char) : List Char :=
  if "parbatya ".toList.isPrefixOf l then
    let r := replaceFirst "parbatya ".toList [] l
    if '-' ∈ r then r else r ++ "-1".toList
  else l

/-- The body of `normalize_seat_name` after the emptiness guard:
strip, lower, spelling substitutions, hill-district rule, character
filter, whitespace collapse — in source order. -/
def normalizeCore (l : List Char) : List Char :=
  collapseWs ((parbatyaStep (applySeatSubs (pyLowerChars (pyStripChars l)))).filter
    seatNameKeep)

/-- `build_map.normalize_seat_name`.  The `if not name` guard maps the
empty (falsy) string to `''`. -/
def normalize_seat_name (name : String) : String :=
  if name = "" then "" else ⟨normalizeCore name.toList⟩

/-! ### Data model of the parsed election payload (`scrape_votes.py`) -/

/-- One value of a seat's `election_results` mapping: `result.get('votes')`
is `none` when the `votes` field is null or absent. -/
structure VoteRec where
  votes : Option Int
deriving DecidableEq, Repr

/-- A candidate record from the payload's `candidates` lists.  `diid` is
stored already stringified (`str(cand.get('diid'))`); the optional fields
model the keys read by `compute_results` and `_extract_candidate_name`,
with `none` for an absent key. -/
structure Candidate where
  diid : String
  party : Option String := none
  candidate_name : Option String := none
  name : Option String := none
  candidate : Option String := none
  full_name : Option String := none
  candidateName : Option String := none
deriving DecidableEq, Repr

/-- A seat's `election_results` JSON value: either an object (an
insertion-ordered mapping from candidate diid to result record) or an
array, whose contents `compute_results` discards. -/
inductive ResultsVal where
  | obj (entries : List (String × VoteRec))
  | arr (xs : List VoteRec)
deriving DecidableEq, Repr

/-- A `seat_info` value of the `constituencies` mapping. -/
structure SeatInfo where
  seat_number : Option String := none
  seat_name : Option String := none
  election_results : Option ResultsVal := none
deriving DecidableEq, Repr

/-- The decoded `election2026` payload; `none` models an absent top-level
key. -/
structure Payload where
  constituencies : Option (List (String × SeatInfo)) := none
  candidates : Option (List (String × List Candidate)) := none
deriving DecidableEq, Repr

/-- Coalition metadata (only the field `compute_results` reads;
`display_name` and `color_scale` are presentation-only).  `none` models
an absent `keywords` key, read as `meta.get('keywords', [])`. -/
structure CoalitionMeta where
  keywords : Option (List String) := none
deriving DecidableEq, Repr

/-- `load_coalitions`: lower-cases every keyword list in place (the file
reading itself is I/O; this is the value the function returns). -/
def load_coalitions (cs : List (String × CoalitionMeta)) : List (String × CoalitionMeta) :=
  cs.map fun p => (p.1, ⟨some ((p.2.keywords.getD []).map pyLower)⟩)

/-- `party_in_coalition`: an empty (falsy) party name never matches;
otherwise any keyword occurring as a substring of the lower-cased party
name matches. -/
def party_in_coalition (party_name : String) (keywords : List String) : Bool :=
  if party_name = "" then false
  else keywords.any fun kw => containsSub kw.toList (pyLowerChars party_name.toList)

/-- Python truthiness of an optional string field: `none` and `""` are
falsy. -/
def truthyStr : Option String → Option String
  | some s => if s = "" then none else some s
  | none => none

/-- `_extract_candidate_name`: probe the five name keys in order, strip
the first truthy value, else the literal `'Unknown'`. -/
def extract_candidate_name (c : Candidate) : String :=
  match truthyStr c.candidate_name <|> truthyStr c.name <|> truthyStr c.candidate <|>
      truthyStr c.full_name <|> truthyStr c.candidateName with
  | some v => pyStrip v
  | none => "Unknown"

/-- The `{}` fallback of `candidates_by_diid.get(str(diid), {})`. -/
def defaultCandidate : Candidate := { diid := "" }

/-- `candidates_by_diid = {str(cand.get('diid')): cand for cand in
candidate_list}` followed by `.get d`: in a dict comprehension the *last*
candidate with a given diid wins. -/
def candidatesByDiid (cands : List Candidate) (d : String) : Option Candidate :=
  cands.reverse.find? fun c => c.diid = d

/-- `candidate.get('party') or 'UNKNOWN'`. -/
def resolvedParty (c : Candidate) : String := (truthyStr c.party).getD "UNKNOWN"

/-- `results = seat_info.get('election_results', {})` followed by the
`isinstance(results, list)` normalisation to an empty dict. -/
def resultEntries (info : SeatInfo) : List (String × VoteRec) :=
  match info.election_results.getD (.obj []) with
  | .obj es => es
  | .arr _ => []

/-- `d[k] = d.get(k, 0) + v` on an insertion-ordered mapping. -/
def bump (l : List (String × Int)) (k : String) (v : Int) : List (String × Int) :=
  match l with
  | [] => [(k, v)]
  | (k', v') :: rest => if k' = k then (k', v' + v) :: rest else (k', v') :: bump rest k v

/-- One row of the party-by-seat output. -/
structure PartyBySeatRec where
  seat_id : String
  seat_number : Option String
  seat_name : Option String
  party : String
  votes : Int
deriving DecidableEq, Repr

/-- The loop state of `compute_results` while iterating one seat's result
entries: the four per-seat accumulators plus the two cross-seat
accumulators updated by the same loop body. -/
structure AggState where
  total_votes : Int
  coalition_counts : String → Int
  seat_votes_by_party : List (String × Int)
  candidate_rankings : List (Int × String × String)
  party_vote_totals : List (String × Int)
  party_by_seat : List PartyBySeatRec

/-- `for code, meta in coalitions.items(): if party_in_coalition(...):
coalition_counts[code] += votes`. -/
def updateCounts (coalitions : List (String × CoalitionMeta)) (party_name : String)
    (votes : Int) (counts : String → Int) : String → Int :=
  coalitions.foldl
    (fun acc p =>
      if party_in_coalition party_name (p.2.keywords.getD []) then
        fun c => if c = p.1 then acc c + votes else acc c
      else acc)
    counts

/-- The body of `for diid, result in result_dict.items()` in
`compute_results`: entries whose `votes` is null/absent are skipped
entirely; otherwise every accumulator is updated. -/
def processEntry (coalitions : List (String × CoalitionMeta))
    (cbd : String → Option Candidate) (sid : String) (snum sname : Option String)
    (st : AggState) (entry : String × VoteRec) : AggState :=
  match entry.2.votes with
  | none => st
  | some v =>
    let cand := (cbd entry.1).getD defaultCandidate
    let party_name := resolvedParty cand
    let cname := extract_candidate_name cand
    { total_votes := st.total_votes + v
      coalition_counts := updateCounts coalitions party_name v st.coalition_counts
      seat_votes_by_party := bump st.seat_votes_by_party party_name v
      candidate_rankings := st.candidate_rankings ++ [(v, cname, party_name)]
      party_vote_totals := bump st.party_vote_totals party_name v
      party_by_seat := st.party_by_seat ++ [⟨sid, snum, sname, party_name, v⟩] }

/-- Stable insertion of `x` into a list sorted descending by `key`: `x`
goes before the first element whose key is not larger, so equal-key
elements that were originally earlier stay earlier. -/
def insertDescBy {α : Type} (key : α → Int) (x : α) : List α → List α
  | [] => [x]
  | y :: ys => if key y ≤ key x then x :: y :: ys else y :: insertDescBy key x ys

/-- Stable descending sort by an integer key: the extensional behaviour
of Python's `list.sort(key=..., reverse=True)` and
`sorted(..., key=..., reverse=True)`. -/
def sortDescBy {α : Type} (key : α → Int) (l : List α) : List α :=
  l.foldr (insertDescBy key) []

/-- Round `n / d` (with `d > 0`) half to even — the rounding CPython
uses when formatting floats — by exact integer arithmetic. -/
def roundHalfEvenDiv (n d : Int) : Int :=
  let fl := Int.fdiv n d
  let r2 := 2 * (n - fl * d)
  if r2 < d then fl
  else if d < r2 then fl + 1
  else if fl % 2 = 0 then fl else fl + 1

/-- Decimal rendering of a non-negative number of tenths as `d.d`. -/
def fmtTenths (m : Nat) : String := toString (m / 10) ++ "." ++ toString (m % 10)

/-- `f"{votes / total_votes * 100:.1f}"`: one-decimal formatting,
modelling the float expression by the exact rational
`votes * 1000 / total` (in tenths of a percent) it approximates. -/
def fmtPctOf (votes total : Int) : String :=
  let n := roundHalfEvenDiv (votes * 1000) total
  if n < 0 then "-" ++ fmtTenths (-n).toNat else fmtTenths n.toNat

/-- `f"{name} ({party}) {votes / total_votes * 100:.1f}%"`. -/
def fmtCandEntry (total : Int) (r : Int × String × String) : String :=
  r.2.1 ++ " (" ++ r.2.2 ++ ") " ++ fmtPctOf r.1 total ++ "%"

/-- `f"{party} ({votes / total_votes * 100:.1f}%)"`. -/
def fmtPartyEntry (total : Int) (r : Int × String × String) : String :=
  r.2.2 ++ " (" ++ fmtPctOf r.1 total ++ "%)"

/-- One row of the seat-level output.  The per-coalition columns
`{code}_votes` / `{code}_ratio` are kept as association lists in
coalition order; `party_votes` holds the seat's per-party subtotals that
the source later spreads into one column per distinct party. -/
structure SeatRecord where
  seat_id : String
  seat_number : Option String
  seat_name : Option String
  total_votes : Int
  top_three_candidates : String
  top_three : String
  coalition_votes : List (String × Int)
  coalition_ratios : List (String × ℚ)
  party_votes : List (String × Int)
deriving DecidableEq, Repr

/-- The candidate lookup table `candidates_by_diid` built for one seat. -/
def seatCbd (candidates_by_seat : List (String × List Candidate)) (sid : String) :
    String → Option Candidate :=
  candidatesByDiid ((candidates_by_seat.lookup sid).getD [])

/-- The accumulator state after the entry loop of one seat. -/
def seatState (coalitions : List (String × CoalitionMeta))
    (candidates_by_seat : List (String × List Candidate))
    (g : List (String × Int) × List PartyBySeatRec)
    (sid : String) (info : SeatInfo) : AggState :=
  (resultEntries info).foldl
    (processEntry coalitions (seatCbd candidates_by_seat sid) sid
      info.seat_number info.seat_name)
    ⟨0, fun _ => 0, [], [], g.1, g.2⟩

/-- The body of `for seat_id, seat_info in constituencies.items()` in
`compute_results`: produce the seat's record and thread the two
cross-seat accumulators. -/
def processSeat (coalitions : List (String × CoalitionMeta))
    (candidates_by_seat : List (String × List Candidate))
    (g : List (String × Int) × List PartyBySeatRec)
    (sid : String) (info : SeatInfo) :
    SeatRecord × (List (String × Int) × List PartyBySeatRec) :=
  let st := seatState coalitions candidates_by_seat g sid info
  let ratios : String → ℚ :=
    if st.total_votes = 0 then fun _ => 0
    else fun code => (st.coalition_counts code : ℚ) / (st.total_votes : ℚ)
  let tops : String × String :=
    if st.candidate_rankings ≠ [] ∧ 0 < st.total_votes then
      let top_entries := (sortDescBy (fun r => r.1) st.candidate_rankings).take 3
      (String.intercalate ", " (top_entries.map (fmtCandEntry st.total_votes)),
       String.intercalate ", " (top_entries.map (fmtPartyEntry st.total_votes)))
    else ("", "")
  ({ seat_id := sid
     seat_number := info.seat_number
     seat_name := info.seat_name
     total_votes := st.total_votes
     top_three_candidates := tops.1
     top_three := tops.2
     coalition_votes := coalitions.map fun p => (p.1, st.coalition_counts p.1)
     coalition_ratios := coalitions.map fun p => (p.1, ratios p.1)
     party_votes := st.seat_votes_by_party },
   (st.party_vote_totals, st.party_by_seat))

/-- The three outputs of `compute_results` (the rows of the three
DataFrames). -/
structure Results where
  seat_results : List SeatRecord
  party_totals : List (String × Int)
  party_by_seat : List PartyBySeatRec
deriving DecidableEq, Repr

/-- One iteration of the seat loop of `compute_results`: append the
seat's record and thread the cross-seat accumulators. -/
def seatsStep (coalitions : List (String × CoalitionMeta))
    (cands : List (String × List Candidate))
    (acc : List SeatRecord × (List (String × Int) × List PartyBySeatRec))
    (p : String × SeatInfo) :
    List SeatRecord × (List (String × Int) × List PartyBySeatRec) :=
  let r := processSeat coalitions cands acc.2 p.1 p.2
  (acc.1 ++ [r.1], r.2)

/-- `compute_results`: absent `constituencies` / `candidates` keys
default to empty mappings; seats are processed in payload order; party
totals are sorted descending by votes (stably, so ties keep first-seen
order). -/
def compute_results (data : Payload)
    (coalitions : List (String × CoalitionMeta)) : Results :=
  let cons := data.constituencies.getD []
  let cands := data.candidates.getD []
  let fin := cons.foldl (seatsStep coalitions cands) ([], ([], []))
  { seat_results := fin.1
    party_totals := sortDescBy (fun p => p.2) fin.2.1
    party_by_seat := fin.2.2 }

/-- The seat record produced for one constituency.  (The record does not
depend on the incoming cross-seat accumulator, as `seatRecord_processSeat`
proves, so it is defined with the empty accumulator.) -/
def seatRecordOf (coalitions : List (String × CoalitionMeta))
    (candidates_by_seat : List (String × List Candidate))
    (sid : String) (info : SeatInfo) : SeatRecord :=
  (processSeat coalitions candidates_by_seat ([], []) sid info).1

/-! ### Specification-side views of the entry loop -/

/-- The non-null vote counts of a seat's entries, in order. -/
def countedVotes (entries : List (String × VoteRec)) : List Int :=
  entries.filterMap fun e => e.2.votes

/-- The party resolved for one entry. -/
def entryParty (cbd : String → Option Candidate) (e : String × VoteRec) : String :=
  resolvedParty ((cbd e.1).getD defaultCandidate)

/-- The `(votes, candidate name, party)` ranking triples collected for a
seat, in encounter order (counted entries only). -/
def rankingsOf (cbd : String → Option Candidate)
    (entries : List (String × VoteRec)) : List (Int × String × String) :=
  entries.filterMap fun e =>
    e.2.votes.map fun v =>
      (v, extract_candidate_name ((cbd e.1).getD defaultCandidate), entryParty cbd e)

/-- The votes the counted entries contribute to one keyword set: an
entry's votes when its resolved party matches, nothing otherwise. -/
def matchedVotes (cbd : String → Option Candidate) (kws : List String)
    (entries : List (String × VoteRec)) : List Int :=
  entries.filterMap fun e =>
    e.2.votes.bind fun v =>
      if party_in_coalition (entryParty cbd e) kws then some v else none

/-! ### `build_map` geo-join -/

/-- The aggregate attributes `build_map` keeps per normalized seat key
(`seat_data` values). -/
structure SeatData where
  ratio : ℚ
  votes : Int
  total_votes : Int
  seat_name : String
  top_three : String
deriving DecidableEq, Repr

/-- A geo feature's property set: `cst_n` is the display-name property
the join consumes; the other four fields are the attributes the join may
attach (`none` = property absent). -/
structure FeatProps where
  cst_n : Option String := none
  seat_key : Option String := none
  ratio : Option ℚ := none
  top_three : Option String := none
  seat_name : Option String := none
deriving DecidableEq, Repr

/-- `seat_data.get(seat_key)` over the dict built from the results rows;
dict assignment means the last writer for a key wins. -/
def seatDataGet (sd : List (String × SeatData)) (k : String) : Option SeatData :=
  (sd.reverse.find? fun p => p.1 = k).map Prod.snd

/-- The feature loop of `build_map`: a feature whose display name
normalizes to the empty key is skipped; a matched feature receives
`seat_key`, `ratio`, `top_three` and `seat_name`; an unmatched feature
receives `seat_key`, `ratio = 0.0` and empty `top_three` only. -/
def annotateFeature (sd : List (String × SeatData)) (f : FeatProps) : FeatProps :=
  let seat_key := normalize_seat_name (pyStrip (f.cst_n.getD ""))
  if seat_key = "" then f
  else
    match seatDataGet sd seat_key with
    | some d =>
      { f with seat_key := some seat_key, ratio := some d.ratio,
               top_three := some d.top_three, seat_name := some d.seat_name }
    | none =>
      { f with seat_key := some seat_key, ratio := some 0, top_three := some "" }

/-- The whole `for feature in geojson.get('features', [])` loop. -/
def annotateFeatures (sd : List (String × SeatData)) (fs : List FeatProps) : List FeatProps :=
  fs.map (annotateFeature sd)

/-! ### `extract_election_data_from_html` -/

/-- The four `ValueError`s the extractor can raise. -/
inductive ExtractErr where
  | keyNotFoundInAnyBlock
  | keyNotPresentInScript
  | endNotFound
  | malformedJson
deriving DecidableEq, Repr

/-- The quoted key `'"election2026"'` searched for in script blocks. -/
def electionKey : List Char := "\"election2026\"".toList

/-- The loop over `soup.find_all('script')`: the first script whose
string content is truthy and contains the quoted key. -/
def findScript : List (Option String) → Option (List Char)
  | [] => none
  | none :: rest => findScript rest
  | some s :: rest =>
    if s ≠ "" ∧ containsSub electionKey s.toList then some s.toList
    else findScript rest

/-- Normalize a Python slice/find index against length `n` (negative
counts from the end; both ends clamped). -/
def pySliceIdx (n : Nat) (i : Int) : Nat :=
  if i < 0 then ((n : Int) + i).toNat else min i.toNat n

/-- `str.find(pat, start)` with Python semantics (`-1` when absent). -/
def pyFindFrom (s pat : List Char) (start : Int) : Int :=
  let b := pySliceIdx s.length start
  match firstPrefixPos pat (s.drop b) with
  | some k => ((b + k : Nat) : Int)
  | none => -1

/-- The brace-depth scan: `idx` enumerates positions starting at
`brace_start + 1`; depth is updated per character and the scan stops at
the first position where the depth returns to zero. -/
def braceScan : List Char → Int → Int → Option Int
  | [], _, _ => none
  | c :: cs, idx, depth =>
    let depth1 := if c = '{' then depth + 1 else if c = '}' then depth - 1 else depth
    if depth1 = 0 then some idx else braceScan cs (idx + 1) depth1

/-- `extract_election_data_from_html`, with the two library calls
abstracted: `scripts` stands for the `find_all('script')` contents
(`none` = a script whose `.string` is `None`) and `decode` stands for
`json.loads` (`none` = `JSONDecodeError`).  The `ValueError`s of the
source are modelled by `ExtractErr`. -/
def extract_election_data {J : Type} (decode : List Char → Option J)
    (scripts : List (Option String)) : Except ExtractErr J :=
  match findScript scripts with
  | none => .error .keyNotFoundInAnyBlock
  | some sc =>
    let start := pyFindFrom sc electionKey 0
    if start = -1 then .error .keyNotPresentInScript
    else
      let colon := pyFindFrom sc [':'] start
      let brace_start := pyFindFrom sc ['{'] colon
      match braceScan (sc.drop (pySliceIdx sc.length (brace_start + 1)))
          (brace_start + 1) 1 with
      | none => .error .endNotFound
      | some brace_end =>
        let json_text := (sc.take (pySliceIdx sc.length (brace_end + 1))).drop
          (pySliceIdx sc.length brace_start)
        match decode json_text with
        | some v => .ok v
        | none => .error .malformedJson

/-- Opens minus closes in `l` (specification-side brace balance). -/
def braceBal : List Char → Int
  | [] => 0
  | c :: l => (if c = '{' then 1 else if c = '}' then -1 else 0) + braceBal l

/-- `body` is the interior of a balanced brace object: overall balance
zero and no prefix closes more braces than it has opened. -/
def BalancedBody (body : List Char) : Prop :=
  braceBal body = 0 ∧ ∀ n ≤ body.length, 0 ≤ braceBal (body.take n)

/-! ### Concrete fixtures (the specification's scenario inputs) -/

/-- Scenario fixture: the Party A candidate (500 votes, diid "1"). -/
def candA : Candidate := { diid := "1", party := some "Party A", candidate_name := some "Alice" }

/-- Scenario fixture: the Party B candidate (300 votes, diid "2"). -/
def candB : Candidate := { diid := "2", party := some "Party B", candidate_name := some "Bob" }

/-- Scenario fixture: one seat, Party A 500 votes and Party B 300. -/
def seatAB : SeatInfo :=
  { seat_number := some "1", seat_name := some "TestSeat",
    election_results := some (.obj [("1", ⟨some 500⟩), ("2", ⟨some 300⟩)]) }

/-- Scenario fixture: the one-seat payload. -/
def payloadAB : Payload :=
  { constituencies := some [("s1", seatAB)], candidates := some [("s1", [candA, candB])] }

/-- Scenario fixture: the candidate table of the one-seat payload. -/
def candsAB : List (String × List Candidate) := [("s1", [candA, candB])]

/-- Scenario fixture: the coalition `alpha` with keyword `"party a"`. -/
def coalAlpha : List (String × CoalitionMeta) := [("alpha", ⟨some ["party a"]⟩)]

/-- Fixture: two coalitions whose keywords both match `"Party A"`. -/
def coalXY : List (String × CoalitionMeta) := [("x", ⟨some ["party"]⟩), ("y", ⟨some ["a"]⟩)]

/-- Fixture: one seat's candidate list with a lone Party A candidate. -/
def candsW : List (String × List Candidate) := [("s", [{ diid := "1", party := some "Party A" }])]

/-- Fixture: one seat with a single 7-vote entry. -/
def infoW : SeatInfo := ⟨none, none, some (.obj [("1", ⟨some 7⟩)])⟩

/-! ### Lemmas about the string primitives -/

theorem containsSub_iff (pat l : List Char) : containsSub pat l = true ↔ pat <:+: l := by
  induction l with
  | nil =>
    cases pat with
    | nil => simp [containsSub, firstPrefixPos, List.isPrefixOf]
    | cons a as => simp [containsSub, firstPrefixPos, List.isPrefixOf]
  | cons c cs ih =>
    by_cases h : pat.isPrefixOf (c :: cs)
    · simp only [containsSub, firstPrefixPos, h, if_true, Option.isSome_some, true_iff]
      exact List.IsPrefix.isInfix ( List.isPrefixOf_iff_prefix.mp h)
    · have hred : containsSub pat (c :: cs) = containsSub pat cs := by
        simp [containsSub, firstPrefixPos, h, Option.isSome_map]
      rw [hred, List.infix_cons_iff, ih]
      constructor
      · exact Or.inr
      · rintro (hp | hi)
        · exact absurd ( List.isPrefixOf_iff_prefix.mpr hp) (by simp [h])
        · exact hi

theorem replaceAllGo_eq_self (pat repl : List Char) (s : List Char)
    (h : containsSub pat s = false) : replaceAllGo pat repl 0 s = s := by
  induction s with
  | nil => rfl
  | cons c cs ih =>
    by_cases hp : pat.isPrefixOf (c :: cs)
    · simp [containsSub, firstPrefixPos, hp] at h
    · have hcs : containsSub pat cs = false := by
        simpa [containsSub, firstPrefixPos, hp, Option.isSome_map] using h
      simp [replaceAllGo, hp, ih hcs]

theorem replaceAll_eq_self (pat repl s : List Char)
    (h : containsSub pat s = false) : replaceAll pat repl s = s := by
  unfold replaceAll
  by_cases he : pat.isEmpty <;> simp [he, replaceAllGo_eq_self pat repl s h]

theorem foldl_replaceAll_eq_self (subs : List (List Char × List Char)) (l : List Char)
    (h : ∀ pr ∈ subs, containsSub pr.1 l = false) :
    subs.foldl (fun acc pr => replaceAll pr.1 pr.2 acc) l = l := by
  induction subs with
  | nil => rfl
  | cons p ps ih =>
    simp only [List.foldl_cons]
    rw [replaceAll_eq_self _ _ _ (h p (by simp))]
    exact ih (fun pr hpr => h pr (by simp [hpr]))

theorem collapseWsGo_idem (l : List Char) :
    ∀ b, collapseWsGo b (collapseWsGo b l) = collapseWsGo b l := by
  induction l with
  | nil => intro b; rfl
  | cons c cs ih =>
    intro b
    by_cases hws : pyWs c
    · cases b with
      | true =>
        simp only [collapseWsGo, hws, if_true]
        exact ih true
      | false =>
        have hsp : pyWs ' ' = true := by decide
        simp [collapseWsGo, hws, hsp]
        rw [ih true]
    · simp [collapseWsGo, hws]
      rw [ih false]

theorem mem_collapseWsGo {c : Char} :
    ∀ (b : Bool) (l : List Char), c ∈ collapseWsGo b l → c ∈ l ∨ c = ' ' := by
  intro b l
  induction l generalizing b with
  | nil => intro h; exact absurd h (by simp [collapseWsGo])
  | cons d ds ih =>
    intro h
    by_cases hws : pyWs d
    · cases b with
      | true =>
        simp only [collapseWsGo, hws, if_true] at h
        rcases ih true h with h' | h'
        · exact Or.inl (List.mem_cons_of_mem _ h')
        · exact Or.inr h'
      | false =>
        simp only [collapseWsGo, hws, if_true, if_false] at h
        rcases List.mem_cons.mp h with h' | h'
        · exact Or.inr h'
        · rcases ih true h' with h'' | h''
          · exact Or.inl (List.mem_cons_of_mem _ h'')
          · exact Or.inr h''
    · simp only [collapseWsGo, hws, if_false] at h
      rcases List.mem_cons.mp h with h' | h'
      · exact Or.inl (h' ▸ List.mem_cons_self _ _)
      · rcases ih false h' with h'' | h''
        · exact Or.inl (List.mem_cons_of_mem _ h'')
        · exact Or.inr h''

theorem seatNameKeep_lower {c : Char} (h : seatNameKeep c = true) : pyLowerChar c = c := by
  unfold seatNameKeep at h
  simp only [Bool.or_eq_true, Bool.and_eq_true, decide_eq_true_eq] at h
  unfold pyLowerChar
  rcases h with ((⟨h1, h2⟩ | ⟨h1, h2⟩) | h1) | h1
  · rw [if_neg (by omega)]
  · rw [if_neg (by omega)]
  · subst h1; decide
  · subst h1; decide

theorem pyLowerChars_eq_self (l : List Char) (h : ∀ c ∈ l, seatNameKeep c = true) :
    pyLowerChars l = l := by
  unfold pyLowerChars
  induction l with
  | nil => rfl
  | cons c cs ih =>
    simp only [List.map_cons]
    rw [seatNameKeep_lower (h c (by simp)), ih (fun d hd => h d (by simp [hd]))]

theorem normalizeCore_chars (l : List Char) : ∀ c ∈ normalizeCore l, seatNameKeep c = true := by
  intro c hc
  unfold normalizeCore collapseWs at hc
  rcases mem_collapseWsGo false _ hc with h | h
  · exact List.of_mem_filter h
  · subst h; decide

theorem parbatyaStep_eq_self (l : List Char)
    (h : "parbatya ".toList.isPrefixOf l = false) : parbatyaStep l = l := by
  unfold parbatyaStep
  rw [h]
  simp

theorem applySeatSubs_eq_self (l : List Char)
    (h : ∀ pr ∈ seatSubs, containsSub pr.1 l = false) : applySeatSubs l = l :=
  foldl_replaceAll_eq_self seatSubs l h

theorem normalizeCore_toList (x : String) (hx : x ≠ "") :
    (normalize_seat_name x).toList = normalizeCore x.toList := by
  unfold normalize_seat_name
  simp [hx]

theorem normalize_seat_name_ne (y : String) (hy : y ≠ "") :
    normalize_seat_name y = ⟨normalizeCore y.toList⟩ := by
  unfold normalize_seat_name
  rw [if_neg hy]

/-- C3 (counterexample): `normalize_seat_name` is not idempotent.  On
`"a !"` the strip happens before the punctuation filter, so the first
pass returns `"a "` (with a trailing space) while the second pass strips
that space and returns `"a"`. -/
theorem eC3_normalize_not_idempotent :
    normalize_seat_name (normalize_seat_name "a !") ≠ normalize_seat_name "a !" := by
  decide

/-- C3 (amended): `normalize_seat_name` is idempotent on every input
whose normalized form has no leading or trailing whitespace, contains
none of the seven spelling-variant source substrings, and does not start
with the hill-district prefix `"parbatya "`.  (In general idempotence
fails, e.g. on `"a !"`.) -/
theorem eC3_normalize_idempotent_cond (x : String)
    (h1 : pyStrip (normalize_seat_name x) = normalize_seat_name x)
    (h2 : ∀ pr ∈ seatSubs, containsSub pr.1 (normalize_seat_name x).toList = false)
    (h3 : "parbatya ".toList.isPrefixOf (normalize_seat_name x).toList = false) :
    normalize_seat_name (normalize_seat_name x) = normalize_seat_name x := by
  by_cases hx : x = ""
  · subst hx; rfl
  · by_cases hy0 : normalize_seat_name x = ""
    · rw [hy0]; rfl
    · have hydata : (normalize_seat_name x).toList = normalizeCore x.toList :=
        normalizeCore_toList x hx
      have hkeep : ∀ c ∈ (normalize_seat_name x).toList, seatNameKeep c = true := by
        rw [hydata]; exact normalizeCore_chars _
      have hstrip : pyStripChars (normalize_seat_name x).toList
          = (normalize_seat_name x).toList := congrArg String.data h1
      have key : normalizeCore (normalize_seat_name x).toList
          = (normalize_seat_name x).toList := by
        unfold normalizeCore
        rw [hstrip, pyLowerChars_eq_self _ hkeep, applySeatSubs_eq_self _ h2,
          parbatyaStep_eq_self _ h3, List.filter_eq_self.mpr hkeep]
        rw [hydata]
        unfold normalizeCore collapseWs
        exact collapseWsGo_idem _ false
      calc normalize_seat_name (normalize_seat_name x)
          = ⟨normalizeCore (normalize_seat_name x).toList⟩ :=
            normalize_seat_name_ne _ hy0
        _ = ⟨(normalize_seat_name x).toList⟩ := by rw [key]
        _ = normalize_seat_name x := rfl

set_option maxHeartbeats 1000000 in
/-- C3 witness: the amended idempotence theorem applies to a concrete
seat name. -/
theorem eC3_normalize_idempotent_cond_witness :
    normalize_seat_name (normalize_seat_name "Dhaka-5") = normalize_seat_name "Dhaka-5" :=
  eC3_normalize_idempotent_cond "Dhaka-5" (by decide) (by decide) (by decide)

/-! ### Lemmas about the entry loop of `compute_results` -/

theorem processEntry_none {co : List (String × CoalitionMeta)}
    {cbd : String → Option Candidate} {sid : String} {sn sna : Option String}
    {st : AggState} {e : String × VoteRec} (h : e.2.votes = none) :
    processEntry co cbd sid sn sna st e = st := by
  unfold processEntry; rw [h]

theorem processEntry_some {co : List (String × CoalitionMeta)}
    {cbd : String → Option Candidate} {sid : String} {sn sna : Option String}
    {st : AggState} {e : String × VoteRec} {v : Int} (h : e.2.votes = some v) :
    processEntry co cbd sid sn sna st e =
      { total_votes := st.total_votes + v
        coalition_counts := updateCounts co (entryParty cbd e) v st.coalition_counts
        seat_votes_by_party := bump st.seat_votes_by_party (entryParty cbd e) v
        candidate_rankings := st.candidate_rankings ++
          [(v, extract_candidate_name ((cbd e.1).getD defaultCandidate), entryParty cbd e)]
        party_vote_totals := bump st.party_vote_totals (entryParty cbd e) v
        party_by_seat := st.party_by_seat ++ [⟨sid, sn, sna, entryParty cbd e, v⟩] } := by
  unfold processEntry entryParty resolvedParty; rw [h]

theorem seatFold_total (co : List (String × CoalitionMeta))
    (cbd : String → Option Candidate) (sid : String) (sn sna : Option String) :
    ∀ (es : List (String × VoteRec)) (st : AggState),
      (es.foldl (processEntry co cbd sid sn sna) st).total_votes
        = st.total_votes + (countedVotes es).sum := by
  intro es
  induction es with
  | nil => intro st; simp [countedVotes]
  | cons e es ih =>
    intro st
    simp only [List.foldl_cons]
    rcases hv : e.2.votes with _ | v
    · rw [processEntry_none hv, ih]
      simp [countedVotes, List.filterMap_cons, hv]
    · rw [processEntry_some hv, ih]
      simp only [countedVotes, List.filterMap_cons, hv, List.sum_cons]
      show st.total_votes + v + (countedVotes es).sum
        = st.total_votes + (v + (countedVotes es).sum)
      omega

theorem seatFold_rankings (co : List (String × CoalitionMeta))
    (cbd : String → Option Candidate) (sid : String) (sn sna : Option String) :
    ∀ (es : List (String × VoteRec)) (st : AggState),
      (es.foldl (processEntry co cbd sid sn sna) st).candidate_rankings
        = st.candidate_rankings ++ rankingsOf cbd es := by
  intro es
  induction es with
  | nil => intro st; simp [rankingsOf]
  | cons e es ih =>
    intro st
    simp only [List.foldl_cons]
    rcases hv : e.2.votes with _ | v
    · rw [processEntry_none hv, ih]
      simp [rankingsOf, List.filterMap_cons, hv]
    · rw [processEntry_some hv, ih]
      simp [rankingsOf, List.filterMap_cons, hv]

theorem updateCounts_not_mem (co : List (String × CoalitionMeta)) (pn : String)
    (v : Int) (code : String) (h : code ∉ co.map Prod.fst) :
    ∀ counts : String → Int, updateCounts co pn v counts code = counts code := by
  induction co with
  | nil => intro counts; rfl
  | cons p ps ih =>
    intro counts
    have hne : ¬code = p.1 := by
      intro hc; exact h (by simp [hc])
    have hps : code ∉ ps.map Prod.fst := by
      intro hc; exact h (by simp [hc])
    unfold updateCounts
    simp only [List.foldl_cons]
    by_cases hm : party_in_coalition pn (p.2.keywords.getD [])
    · rw [if_pos hm]
      have := ih hps (fun c => if c = p.1 then counts c + v else counts c)
      unfold updateCounts at this
      rw [this, if_neg hne]
    · rw [if_neg hm]
      have := ih hps counts
      unfold updateCounts at this
      rw [this]

theorem updateCounts_mem (co : List (String × CoalitionMeta)) (pn : String)
    (v : Int) (code : String) (meta : CoalitionMeta)
    (hmem : (code, meta) ∈ co) (hnd : (co.map Prod.fst).Nodup) :
    ∀ counts : String → Int,
      updateCounts co pn v counts code = counts code +
        (if party_in_coalition pn (meta.keywords.getD []) then v else 0) := by
  induction co with
  | nil => cases hmem
  | cons p ps ih =>
    intro counts
    have hnd' : (ps.map Prod.fst).Nodup := (List.nodup_cons.mp hnd).2
    have hphd : p.1 ∉ ps.map Prod.fst := (List.nodup_cons.mp hnd).1
    unfold updateCounts
    simp only [List.foldl_cons]
    rcases List.mem_cons.mp hmem with heq | hmem'
    · have hp1 : p.1 = code := by rw [← heq]
      have hp2 : p.2 = meta := by rw [← heq]
      have hnotin : code ∉ ps.map Prod.fst := hp1 ▸ hphd
      by_cases hm : party_in_coalition pn (p.2.keywords.getD [])
      · rw [if_pos hm]
        have hrest := updateCounts_not_mem ps pn v code hnotin
          (fun c => if c = p.1 then counts c + v else counts c)
        unfold updateCounts at hrest
        rw [hrest, if_pos hp1.symm, if_pos (hp2 ▸ hm)]
      · rw [if_neg hm]
        have hrest := updateCounts_not_mem ps pn v code hnotin counts
        unfold updateCounts at hrest
        rw [hrest, if_neg (hp2 ▸ hm)]
        exact (add_zero (counts code)).symm
    · have hne : ¬code = p.1 := by
        intro hc
        exact hphd (hc ▸ (List.mem_map_of_mem Prod.fst hmem'))
      by_cases hm : party_in_coalition pn (p.2.keywords.getD [])
      · rw [if_pos hm]
        have := ih hmem' hnd' (fun c => if c = p.1 then counts c + v else counts c)
        unfold updateCounts at this
        rw [this, if_neg hne]
      · rw [if_neg hm]
        have := ih hmem' hnd' counts
        unfold updateCounts at this
        rw [this]

theorem seatFold_counts (co : List (String × CoalitionMeta))
    (cbd : String → Option Candidate) (sid : String) (sn sna : Option String)
    (code : String) (meta : CoalitionMeta)
    (hmem : (code, meta) ∈ co) (hnd : (co.map Prod.fst).Nodup) :
    ∀ (es : List (String × VoteRec)) (st : AggState),
      (es.foldl (processEntry co cbd sid sn sna) st).coalition_counts code
        = st.coalition_counts code
          + (matchedVotes cbd (meta.keywords.getD []) es).sum := by
  intro es
  induction es with
  | nil => intro st; simp [matchedVotes]
  | cons e es ih =>
    intro st
    simp only [List.foldl_cons]
    rcases hv : e.2.votes with _ | v
    · rw [processEntry_none hv, ih]
      simp [matchedVotes, List.filterMap_cons, hv]
    · rw [processEntry_some hv, ih]
      show updateCounts co (entryParty cbd e) v st.coalition_counts code + _ = _
      rw [updateCounts_mem co (entryParty cbd e) v code meta hmem hnd]
      by_cases hm : party_in_coalition (entryParty cbd e) (meta.keywords.getD [])
      · simp [matchedVotes, List.filterMap_cons, hv, hm]
        omega
      · simp [matchedVotes, List.filterMap_cons, hv, hm]

theorem seatFold_agree (co : List (String × CoalitionMeta))
    (cbd : String → Option Candidate) (sid : String) (sn sna : Option String) :
    ∀ (es : List (String × VoteRec)) (st st' : AggState),
      st.total_votes = st'.total_votes →
      st.coalition_counts = st'.coalition_counts →
      st.seat_votes_by_party = st'.seat_votes_by_party →
      st.candidate_rankings = st'.candidate_rankings →
      (es.foldl (processEntry co cbd sid sn sna) st).total_votes
          = (es.foldl (processEntry co cbd sid sn sna) st').total_votes ∧
        (es.foldl (processEntry co cbd sid sn sna) st).coalition_counts
          = (es.foldl (processEntry co cbd sid sn sna) st').coalition_counts ∧
        (es.foldl (processEntry co cbd sid sn sna) st).seat_votes_by_party
          = (es.foldl (processEntry co cbd sid sn sna) st').seat_votes_by_party ∧
        (es.foldl (processEntry co cbd sid sn sna) st).candidate_rankings
          = (es.foldl (processEntry co cbd sid sn sna) st').candidate_rankings := by
  intro es
  induction es with
  | nil => intro st st' h1 h2 h3 h4; exact ⟨h1, h2, h3, h4⟩
  | cons e es ih =>
    intro st st' h1 h2 h3 h4
    simp only [List.foldl_cons]
    rcases hv : e.2.votes with _ | v
    · rw [processEntry_none hv, processEntry_none hv]
      exact ih st st' h1 h2 h3 h4
    · rw [processEntry_some hv, processEntry_some hv]
      exact ih _ _ (by rw [h1]) (by rw [h2]) (by rw [h3]) (by rw [h4])

theorem seatRecord_processSeat (co : List (String × CoalitionMeta))
    (cands : List (String × List Candidate))
    (g : List (String × Int) × List PartyBySeatRec) (sid : String) (info : SeatInfo) :
    (processSeat co cands g sid info).1 = seatRecordOf co cands sid info := by
  unfold seatRecordOf processSeat seatState
  obtain ⟨h1, h2, h3, h4⟩ := seatFold_agree co (seatCbd cands sid) sid info.seat_number
    info.seat_name (resultEntries info) ⟨0, fun _ => 0, [], [], g.1, g.2⟩
    ⟨0, fun _ => 0, [], [], [], []⟩ rfl rfl rfl rfl
  simp only [h1, h2, h3, h4]

theorem seats_foldl_go (co : List (String × CoalitionMeta))
    (cands : List (String × List Candidate)) :
    ∀ (cons : List (String × SeatInfo)) (accL : List SeatRecord)
      (g : List (String × Int) × List PartyBySeatRec),
      (cons.foldl (seatsStep co cands) (accL, g)).1
        = accL ++ cons.map (fun p => seatRecordOf co cands p.1 p.2) := by
  intro cons
  induction cons with
  | nil => intro accL g; simp
  | cons p ps ih =>
    intro accL g
    simp only [List.foldl_cons, List.map_cons]
    rw [show seatsStep co cands (accL, g) p
        = (accL ++ [(processSeat co cands g p.1 p.2).1], (processSeat co cands g p.1 p.2).2)
      from rfl]
    rw [ih]
    rw [seatRecord_processSeat]
    simp

theorem compute_results_seats (data : Payload) (co : List (String × CoalitionMeta)) :
    (compute_results data co).seat_results
      = (data.constituencies.getD []).map
          (fun p => seatRecordOf co (data.candidates.getD []) p.1 p.2) := by
  unfold compute_results
  dsimp only
  rw [seats_foldl_go co (data.candidates.getD []) (data.constituencies.getD []) [] ([], [])]
  simp

/-! ### The stable descending sort -/

theorem insertDescBy_perm {α : Type} (key : α → Int) (x : α) (l : List α) :
    (insertDescBy key x l).Perm (x :: l) := by
  induction l with
  | nil => exact List.Perm.refl _
  | cons y ys ih =>
    unfold insertDescBy
    by_cases h : key y ≤ key x
    · rw [if_pos h]
    · rw [if_neg h]
      exact (List.Perm.cons y ih).trans (List.Perm.swap x y ys)

theorem sortDescBy_perm {α : Type} (key : α → Int) (l : List α) :
    (sortDescBy key l).Perm l := by
  induction l with
  | nil => exact List.Perm.refl _
  | cons a l ih =>
    unfold sortDescBy at *
    simp only [List.foldr_cons]
    exact (insertDescBy_perm key a _).trans (List.Perm.cons a ih)

theorem insertDescBy_sorted {α : Type} (key : α → Int) (x : α) (l : List α)
    (h : l.Pairwise (fun a b => key b ≤ key a)) :
    (insertDescBy key x l).Pairwise (fun a b => key b ≤ key a) := by
  induction l with
  | nil => simp [insertDescBy]
  | cons y ys ih =>
    unfold insertDescBy
    by_cases hk : key y ≤ key x
    · rw [if_pos hk]
      refine List.Pairwise.cons ?_ h
      intro z hz
      rcases List.mem_cons.mp hz with rfl | hz'
      · exact hk
      · exact le_trans ((List.pairwise_cons.mp h).1 z hz') hk
    · rw [if_neg hk]
      have hys := (List.pairwise_cons.mp h).2
      refine List.Pairwise.cons ?_ (ih hys)
      intro z hz
      rcases List.mem_cons.mp ((insertDescBy_perm key x ys).mem_iff.mp hz) with rfl | hz'
      · omega
      · exact (List.pairwise_cons.mp h).1 z hz'

theorem sortDescBy_sorted {α : Type} (key : α → Int) (l : List α) :
    (sortDescBy key l).Pairwise (fun a b => key b ≤ key a) := by
  induction l with
  | nil => simp [sortDescBy]
  | cons a l ih =>
    unfold sortDescBy at *
    simp only [List.foldr_cons]
    exact insertDescBy_sorted key a _ ih

theorem insertDescBy_filter {α : Type} (key : α → Int) (x : α) (l : List α) (v : Int) :
    (insertDescBy key x l).filter (fun a => key a == v)
      = if key x = v then x :: l.filter (fun a => key a == v)
        else l.filter (fun a => key a == v) := by
  induction l with
  | nil =>
    by_cases h : key x = v <;>
      simp [insertDescBy, List.filter_cons, beq_iff_eq, h]
  | cons y ys ih =>
    unfold insertDescBy
    by_cases hk : key y ≤ key x
    · rw [if_pos hk]
      by_cases hx : key x = v <;> simp [List.filter_cons, beq_iff_eq, hx]
    · rw [if_neg hk]
      rw [List.filter_cons, ih]
      by_cases hx : key x = v
      · have hy : ¬key y = v := by omega
        simp [hx, hy, List.filter_cons, beq_iff_eq]
      · by_cases hy : key y = v <;> simp [hx, hy, List.filter_cons, beq_iff_eq]

theorem sortDescBy_filter {α : Type} (key : α → Int) (l : List α) (v : Int) :
    (sortDescBy key l).filter (fun a => key a == v)
      = l.filter (fun a => key a == v) := by
  induction l with
  | nil => rfl
  | cons a l ih =>
    unfold sortDescBy at *
    simp only [List.foldr_cons]
    rw [insertDescBy_filter, List.filter_cons]
    by_cases h : key a = v <;> simp [h, ih]

/-! ### Field lemmas for the seat record -/

theorem seatRecordOf_total (co : List (String × CoalitionMeta))
    (cands : List (String × List Candidate)) (sid : String) (info : SeatInfo) :
    (seatRecordOf co cands sid info).total_votes
      = (seatState co cands ([], []) sid info).total_votes := rfl

theorem seatRecordOf_votes (co : List (String × CoalitionMeta))
    (cands : List (String × List Candidate)) (sid : String) (info : SeatInfo) :
    (seatRecordOf co cands sid info).coalition_votes
      = co.map fun p =>
          (p.1, (seatState co cands ([], []) sid info).coalition_counts p.1) := rfl

theorem seatRecordOf_ratios_zero (co : List (String × CoalitionMeta))
    (cands : List (String × List Candidate)) (sid : String) (info : SeatInfo)
    (h : (seatState co cands ([], []) sid info).total_votes = 0) :
    (seatRecordOf co cands sid info).coalition_ratios
      = co.map fun p => (p.1, (0 : ℚ)) := by
  unfold seatRecordOf processSeat
  dsimp only
  rw [if_pos h]

theorem seatRecordOf_ratios_pos (co : List (String × CoalitionMeta))
    (cands : List (String × List Candidate)) (sid : String) (info : SeatInfo)
    (h : (seatState co cands ([], []) sid info).total_votes ≠ 0) :
    (seatRecordOf co cands sid info).coalition_ratios
      = co.map fun p =>
          (p.1, ((seatState co cands ([], []) sid info).coalition_counts p.1 : ℚ)
            / ((seatState co cands ([], []) sid info).total_votes : ℚ)) := by
  unfold seatRecordOf processSeat
  dsimp only
  rw [if_neg h]

theorem seatRecordOf_tops_empty (co : List (String × CoalitionMeta))
    (cands : List (String × List Candidate)) (sid : String) (info : SeatInfo)
    (h : ¬((seatState co cands ([], []) sid info).candidate_rankings ≠ [] ∧
        0 < (seatState co cands ([], []) sid info).total_votes)) :
    (seatRecordOf co cands sid info).top_three_candidates = "" ∧
    (seatRecordOf co cands sid info).top_three = "" := by
  unfold seatRecordOf processSeat
  dsimp only
  rw [if_neg h]
  exact ⟨rfl, rfl⟩

theorem seatRecordOf_tops_pos (co : List (String × CoalitionMeta))
    (cands : List (String × List Candidate)) (sid : String) (info : SeatInfo)
    (h : (seatState co cands ([], []) sid info).candidate_rankings ≠ [] ∧
        0 < (seatState co cands ([], []) sid info).total_votes) :
    (seatRecordOf co cands sid info).top_three_candidates
      = String.intercalate ", "
          (((sortDescBy (fun r => r.1)
              (seatState co cands ([], []) sid info).candidate_rankings).take 3).map
            (fmtCandEntry (seatState co cands ([], []) sid info).total_votes)) ∧
    (seatRecordOf co cands sid info).top_three
      = String.intercalate ", "
          (((sortDescBy (fun r => r.1)
              (seatState co cands ([], []) sid info).candidate_rankings).take 3).map
            (fmtPartyEntry (seatState co cands ([], []) sid info).total_votes)) := by
  unfold seatRecordOf processSeat
  dsimp only
  rw [if_pos h]
  exact ⟨rfl, rfl⟩

/-! ### Claim theorems for the aggregator's degradation behaviour -/

/-- C8: a payload missing the `constituencies` or `candidates` top-level
key aggregates exactly as if that key mapped to an empty mapping — no
error is raised — and a missing `constituencies` key yields empty
outputs. -/
theorem eC8_missing_keys_degrade :
    (∀ (cands : Option (List (String × List Candidate)))
       (co : List (String × CoalitionMeta)),
      compute_results ⟨none, cands⟩ co = compute_results ⟨some [], cands⟩ co) ∧
    (∀ (cons : Option (List (String × SeatInfo))) (co : List (String × CoalitionMeta)),
      compute_results ⟨cons, none⟩ co = compute_results ⟨cons, some []⟩ co) ∧
    (∀ (cands : Option (List (String × List Candidate)))
       (co : List (String × CoalitionMeta)),
      (compute_results ⟨none, cands⟩ co).seat_results = [] ∧
      (compute_results ⟨none, cands⟩ co).party_totals = [] ∧
      (compute_results ⟨none, cands⟩ co).party_by_seat = []) :=
  ⟨fun _ _ => rfl, fun _ _ => rfl, fun _ _ => ⟨rfl, rfl, rfl⟩⟩

/-- C9: an entry whose `votes` field is null (or absent — both are
modelled by `none`) contributes to none of the outputs: deleting it from
a seat's `election_results` leaves the whole seat computation, including
the cross-seat party totals and party-by-seat rows, unchanged; and every
seat's total is exactly the sum of its non-null vote counts. -/
theorem eC9_null_votes_skipped :
    (∀ (co : List (String × CoalitionMeta)) (cands : List (String × List Candidate))
       (g : List (String × Int) × List PartyBySeatRec) (sid : String)
       (sn sna : Option String) (d : String) (l1 l2 : List (String × VoteRec)),
      processSeat co cands g sid ⟨sn, sna, some (.obj (l1 ++ (d, ⟨none⟩) :: l2))⟩
        = processSeat co cands g sid ⟨sn, sna, some (.obj (l1 ++ l2))⟩) ∧
    (∀ (co : List (String × CoalitionMeta)) (cands : List (String × List Candidate))
       (sid : String) (info : SeatInfo),
      (seatRecordOf co cands sid info).total_votes
        = (countedVotes (resultEntries info)).sum) := by
  constructor
  · intro co cands g sid sn sna d l1 l2
    unfold processSeat seatState
    rw [show resultEntries ⟨sn, sna, some (.obj (l1 ++ (d, ⟨none⟩) :: l2))⟩
        = l1 ++ (d, (⟨none⟩ : VoteRec)) :: l2 from rfl]
    rw [show resultEntries ⟨sn, sna, some (.obj (l1 ++ l2))⟩ = l1 ++ l2 from rfl]
    rw [List.foldl_append, List.foldl_append, List.foldl_cons, processEntry_none rfl]
  · intro co cands sid info
    rw [seatRecordOf_total]
    unfold seatState
    rw [seatFold_total]
    simp

/-- C10: a seat whose `election_results` value is a list is treated as
having zero entries: it is computed exactly like a seat with an empty
results mapping, still appears in the seat-level output (one record per
constituency), has total 0, all coalition votes and ratios 0, empty
top-three strings, and leaves the cross-seat accumulators untouched. -/
theorem eC10_list_results :
    (∀ (co : List (String × CoalitionMeta)) (cands : List (String × List Candidate))
       (g : List (String × Int) × List PartyBySeatRec) (sid : String)
       (sn sna : Option String) (xs : List VoteRec),
      processSeat co cands g sid ⟨sn, sna, some (.arr xs)⟩
          = processSeat co cands g sid ⟨sn, sna, some (.obj [])⟩ ∧
        (processSeat co cands g sid ⟨sn, sna, some (.arr xs)⟩).1.total_votes = 0 ∧
        (∀ pv ∈ (processSeat co cands g sid ⟨sn, sna, some (.arr xs)⟩).1.coalition_votes,
          pv.2 = 0) ∧
        (∀ pr ∈ (processSeat co cands g sid ⟨sn, sna, some (.arr xs)⟩).1.coalition_ratios,
          pr.2 = 0) ∧
        (processSeat co cands g sid ⟨sn, sna, some (.arr xs)⟩).1.top_three_candidates = "" ∧
        (processSeat co cands g sid ⟨sn, sna, some (.arr xs)⟩).1.top_three = "" ∧
        (processSeat co cands g sid ⟨sn, sna, some (.arr xs)⟩).2 = g) ∧
    (∀ (data : Payload) (co : List (String × CoalitionMeta)),
      (compute_results data co).seat_results.length
        = (data.constituencies.getD []).length) := by
  constructor
  · intro co cands g sid sn sna xs
    refine ⟨rfl, rfl, ?_, ?_, rfl, rfl, rfl⟩
    · intro pv hpv
      obtain ⟨p, hp, rfl⟩ := List.mem_map.mp hpv
      rfl
    · intro pr hpr
      obtain ⟨p, hp, rfl⟩ := List.mem_map.mp hpr
      rfl
  · intro data co
    rw [compute_results_seats, List.length_map]

/-- C1: in every parsed payload, a seat whose computed `total_votes` is
zero gets a ratio of exactly 0 for every coalition code and empty
top-three strings (`top_three_candidates` and `top_three`); the
zero-total branch returns 0 directly, so no division is performed. -/
theorem eC1_zero_total (data : Payload) (co : List (String × CoalitionMeta))
    (r : SeatRecord) (hr : r ∈ (compute_results data co).seat_results)
    (h0 : r.total_votes = 0) :
    (∀ pr ∈ r.coalition_ratios, pr.2 = 0) ∧
    r.top_three_candidates = "" ∧ r.top_three = "" := by
  rw [compute_results_seats] at hr
  obtain ⟨p, hp, rfl⟩ := List.mem_map.mp hr
  have h0' : (seatState co (data.candidates.getD []) ([], []) p.1 p.2).total_votes = 0 := by
    rw [← seatRecordOf_total]; exact h0
  constructor
  · intro pr hpr
    rw [seatRecordOf_ratios_zero _ _ _ _ h0'] at hpr
    obtain ⟨q, hq, rfl⟩ := List.mem_map.mp hpr
    rfl
  · apply seatRecordOf_tops_empty
    intro hc
    rw [h0'] at hc
    exact absurd hc.2 (by omega)

/-- C1 witness: a seat with no result entries has total 0, and the
theorem applies to it. -/
theorem eC1_zero_total_witness :
    (∀ pr ∈ (seatRecordOf [("c1", ⟨some ["x"]⟩)] [] "z" ({} : SeatInfo)).coalition_ratios,
      pr.2 = 0) ∧
    (seatRecordOf [("c1", ⟨some ["x"]⟩)] [] "z" ({} : SeatInfo)).top_three_candidates = "" ∧
    (seatRecordOf [("c1", ⟨some ["x"]⟩)] [] "z" ({} : SeatInfo)).top_three = "" :=
  eC1_zero_total ⟨some [("z", {})], none⟩ [("c1", ⟨some ["x"]⟩)] _
    (by rw [compute_results_seats]
        exact List.mem_map_of_mem _ (List.mem_singleton.mpr rfl))
    (by decide)

/-! ### Sum bounds for the coalition counters -/

theorem countedVotes_sum_nonneg (es : List (String × VoteRec))
    (h : ∀ e ∈ es, 0 ≤ e.2.votes.getD 0) : 0 ≤ (countedVotes es).sum := by
  induction es with
  | nil => simp [countedVotes]
  | cons e es ih =>
    have he := h e (by simp)
    have hrest := ih fun e' he' => h e' (by simp [he'])
    rcases hv : e.2.votes with _ | v
    · simpa [countedVotes, List.filterMap_cons, hv] using hrest
    · rw [hv] at he
      simp only [Option.getD_some] at he
      simp only [countedVotes, List.filterMap_cons, hv, List.sum_cons] at *
      omega

theorem matchedVotes_sum_nonneg (cbd : String → Option Candidate) (kws : List String)
    (es : List (String × VoteRec)) (h : ∀ e ∈ es, 0 ≤ e.2.votes.getD 0) :
    0 ≤ (matchedVotes cbd kws es).sum := by
  induction es with
  | nil => simp [matchedVotes]
  | cons e es ih =>
    have he := h e (by simp)
    have hrest := ih fun e' he' => h e' (by simp [he'])
    rcases hv : e.2.votes with _ | v
    · simpa [matchedVotes, List.filterMap_cons, hv] using hrest
    · rw [hv] at he
      simp only [Option.getD_some] at he
      by_cases hm : party_in_coalition (entryParty cbd e) kws
      · simp only [matchedVotes, List.filterMap_cons, hv, Option.some_bind, hm, if_true,
          List.sum_cons] at *
        omega
      · simpa [matchedVotes, List.filterMap_cons, hv, hm] using hrest

theorem matchedVotes_sum_le (cbd : String → Option Candidate) (kws : List String)
    (es : List (String × VoteRec)) (h : ∀ e ∈ es, 0 ≤ e.2.votes.getD 0) :
    (matchedVotes cbd kws es).sum ≤ (countedVotes es).sum := by
  induction es with
  | nil => simp [matchedVotes, countedVotes]
  | cons e es ih =>
    have he := h e (by simp)
    have hrest := ih fun e' he' => h e' (by simp [he'])
    rcases hv : e.2.votes with _ | v
    · simpa [matchedVotes, countedVotes, List.filterMap_cons, hv] using hrest
    · rw [hv] at he
      simp only [Option.getD_some] at he
      have hc : (countedVotes (e :: es)).sum = v + (countedVotes es).sum := by
        simp [countedVotes, List.filterMap_cons, hv]
      by_cases hm : party_in_coalition (entryParty cbd e) kws
      · have hmv : (matchedVotes cbd kws (e :: es)).sum
            = v + (matchedVotes cbd kws es).sum := by
          simp [matchedVotes, List.filterMap_cons, hv, hm]
        rw [hmv, hc]
        omega
      · have hmv : (matchedVotes cbd kws (e :: es)).sum
            = (matchedVotes cbd kws es).sum := by
          simp [matchedVotes, List.filterMap_cons, hv, hm]
        rw [hmv, hc]
        omega

/-- C6: in every payload whose non-null vote counts are all
non-negative, each coalition's per-seat vote count is at most that
seat's total, and for seats with positive total every coalition ratio
lies in [0, 1].  (Coalition codes are dict keys, hence assumed
distinct.) -/
theorem eC6_coalition_bounds (data : Payload) (co : List (String × CoalitionMeta))
    (hnn : ∀ p ∈ data.constituencies.getD [], ∀ e ∈ resultEntries p.2,
      0 ≤ e.2.votes.getD 0)
    (hnd : (co.map Prod.fst).Nodup) :
    ∀ r ∈ (compute_results data co).seat_results,
      (∀ pv ∈ r.coalition_votes, pv.2 ≤ r.total_votes) ∧
      (0 < r.total_votes → ∀ pr ∈ r.coalition_ratios, 0 ≤ pr.2 ∧ pr.2 ≤ 1) := by
  intro r hr
  rw [compute_results_seats] at hr
  obtain ⟨p, hp, rfl⟩ := List.mem_map.mp hr
  have hes := hnn p hp
  have htot : (seatState co (data.candidates.getD []) ([], []) p.1 p.2).total_votes
      = (countedVotes (resultEntries p.2)).sum := by
    unfold seatState
    rw [seatFold_total]
    simp
  have hcnt : ∀ q ∈ co,
      (seatState co (data.candidates.getD []) ([], []) p.1 p.2).coalition_counts q.1
        = (matchedVotes (seatCbd (data.candidates.getD []) p.1) (q.2.keywords.getD [])
            (resultEntries p.2)).sum := by
    intro q hq
    unfold seatState
    rw [seatFold_counts co _ p.1 _ _ q.1 q.2 hq hnd]
    simp
  constructor
  · intro pv hpv
    rw [seatRecordOf_votes] at hpv
    obtain ⟨q, hq, rfl⟩ := List.mem_map.mp hpv
    show (seatState co (data.candidates.getD []) ([], []) p.1 p.2).coalition_counts q.1
      ≤ (seatRecordOf co (data.candidates.getD []) p.1 p.2).total_votes
    rw [seatRecordOf_total, hcnt q hq, htot]
    exact matchedVotes_sum_le _ _ _ hes
  · intro hpos pr hpr
    rw [seatRecordOf_total] at hpos
    have hne : (seatState co (data.candidates.getD []) ([], []) p.1 p.2).total_votes ≠ 0 := by
      omega
    rw [seatRecordOf_ratios_pos _ _ _ _ hne] at hpr
    obtain ⟨q, hq, rfl⟩ := List.mem_map.mp hpr
    have h0c : (0 : Int)
        ≤ (seatState co (data.candidates.getD []) ([], []) p.1 p.2).coalition_counts q.1 := by
      rw [hcnt q hq]
      exact matchedVotes_sum_nonneg _ _ _ hes
    have hcle : (seatState co (data.candidates.getD []) ([], []) p.1 p.2).coalition_counts q.1
        ≤ (seatState co (data.candidates.getD []) ([], []) p.1 p.2).total_votes := by
      rw [hcnt q hq, htot]
      exact matchedVotes_sum_le _ _ _ hes
    constructor
    · apply div_nonneg
      · exact_mod_cast h0c
      · have : (0 : Int) ≤ (seatState co (data.candidates.getD []) ([], []) p.1 p.2).total_votes := by
          omega
        exact_mod_cast this
    · rw [div_le_one (by exact_mod_cast hpos)]
      exact_mod_cast hcle

/-- C6 witness: a one-seat, one-coalition payload with a single
5-vote entry satisfies the hypotheses and hence the bounds. -/
theorem eC6_coalition_bounds_witness :
    (∀ pv ∈ (seatRecordOf [("c1", ⟨some ["unk"]⟩)] []
        "s" ⟨none, none, some (.obj [("1", ⟨some 5⟩)])⟩).coalition_votes,
      pv.2 ≤ (seatRecordOf [("c1", ⟨some ["unk"]⟩)] []
        "s" ⟨none, none, some (.obj [("1", ⟨some 5⟩)])⟩).total_votes) ∧
    (0 < (seatRecordOf [("c1", ⟨some ["unk"]⟩)] []
        "s" ⟨none, none, some (.obj [("1", ⟨some 5⟩)])⟩).total_votes →
      ∀ pr ∈ (seatRecordOf [("c1", ⟨some ["unk"]⟩)] []
        "s" ⟨none, none, some (.obj [("1", ⟨some 5⟩)])⟩).coalition_ratios,
        0 ≤ pr.2 ∧ pr.2 ≤ 1) :=
  eC6_coalition_bounds
    ⟨some [("s", ⟨none, none, some (.obj [("1", ⟨some 5⟩)])⟩)], none⟩
    [("c1", ⟨some ["unk"]⟩)] (by decide) (by decide) _
    (by rw [compute_results_seats]
        exact List.mem_map_of_mem _ (List.mem_singleton.mpr rfl))

theorem resolvedParty_ne_empty (c : Candidate) : resolvedParty c ≠ "" := by
  unfold resolvedParty truthyStr
  rcases c.party with _ | s
  · decide
  · by_cases h : s = "" <;> simp [h]

/-- C7: a candidate's votes count toward a coalition iff the resolved
party name contains one of the coalition's keywords as a
case-insensitive substring (with keywords lower-cased at load time);
and each coalition's seat count is exactly the sum of the votes of the
entries whose party matches its own keyword set, so coalitions are
counted independently — a party matching two coalitions contributes its
full votes to both. -/
theorem eC7_keyword_matching :
    (∀ (kws0 : List String) (c : Candidate),
      party_in_coalition (resolvedParty c) (kws0.map pyLower) = true
        ↔ ∃ kw ∈ kws0, (pyLower kw).toList <:+: pyLowerChars (resolvedParty c).toList) ∧
    (∀ (co : List (String × CoalitionMeta)) (cands : List (String × List Candidate))
       (sid : String) (info : SeatInfo),
      (co.map Prod.fst).Nodup →
      (seatRecordOf co cands sid info).coalition_votes
        = co.map fun q =>
            (q.1, (matchedVotes (seatCbd cands sid) (q.2.keywords.getD [])
              (resultEntries info)).sum)) := by
  constructor
  · intro kws0 c
    unfold party_in_coalition
    rw [if_neg (resolvedParty_ne_empty c)]
    rw [List.any_eq_true]
    constructor
    · rintro ⟨kw', hm, hc⟩
      obtain ⟨kw, hkw, rfl⟩ := List.mem_map.mp hm
      exact ⟨kw, hkw, (containsSub_iff _ _).mp hc⟩
    · rintro ⟨kw, hkw, hinf⟩
      exact ⟨pyLower kw, List.mem_map_of_mem _ hkw, (containsSub_iff _ _).mpr hinf⟩
  · intro co cands sid info hnd
    rw [seatRecordOf_votes]
    apply List.map_congr_left
    intro q hq
    unfold seatState
    rw [seatFold_counts co _ sid _ _ q.1 q.2 hq hnd]
    simp

/-- C7 witness: the matching criterion and the independent counting at a
concrete input — a party matching the keywords of both coalitions is
counted in full by both. -/
theorem eC7_keyword_matching_witness :
    (party_in_coalition (resolvedParty { diid := "1", party := some "Party A" })
        (["party a"].map pyLower) = true
      ↔ ∃ kw ∈ ["party a"],
          (pyLower kw).toList
            <:+: pyLowerChars (resolvedParty { diid := "1", party := some "Party A" }).toList) ∧
    (seatRecordOf coalXY candsW "s" infoW).coalition_votes
      = coalXY.map fun q =>
          (q.1, (matchedVotes (seatCbd candsW "s") (q.2.keywords.getD [])
            (resultEntries infoW)).sum) :=
  ⟨eC7_keyword_matching.1 ["party a"] { diid := "1", party := some "Party A" },
   eC7_keyword_matching.2 coalXY candsW "s" infoW (by decide)⟩

theorem rankingsOf_length (cbd : String → Option Candidate)
    (es : List (String × VoteRec)) :
    (rankingsOf cbd es).length = (countedVotes es).length := by
  induction es with
  | nil => rfl
  | cons e es ih =>
    rcases hv : e.2.votes with _ | v
    · simpa [rankingsOf, countedVotes, List.filterMap_cons, hv] using ih
    · simpa [rankingsOf, countedVotes, List.filterMap_cons, hv] using ih

theorem seatState_total (co : List (String × CoalitionMeta))
    (cands : List (String × List Candidate))
    (g : List (String × Int) × List PartyBySeatRec) (sid : String) (info : SeatInfo) :
    (seatState co cands g sid info).total_votes
      = (countedVotes (resultEntries info)).sum := by
  unfold seatState
  rw [seatFold_total]
  simp

theorem seatState_rankings (co : List (String × CoalitionMeta))
    (cands : List (String × List Candidate))
    (g : List (String × Int) × List PartyBySeatRec) (sid : String) (info : SeatInfo) :
    (seatState co cands g sid info).candidate_rankings
      = rankingsOf (seatCbd cands sid) (resultEntries info) := by
  unfold seatState
  rw [seatFold_rankings]
  simp

/-- C2: for every seat with positive total, the two top-three summaries
are the comma-joined one-decimal percentage formatting of the first
three elements of the seat's ranking triples sorted descending by votes
by a stable sort — the sorted list is a permutation of the triples,
sorted descending, and preserves encounter order within each vote count;
and on the specification's scenario payload (Party A 500 votes, Party B
300, coalition `alpha` with keyword `"party a"`) the outputs are
total 800, alpha votes 500, alpha ratio 0.625, and the listing
`"Party A (62.5%), Party B (37.5%)"`. -/
theorem eC2_top_three :
    (∀ (co : List (String × CoalitionMeta)) (cands : List (String × List Candidate))
       (sid : String) (info : SeatInfo),
      0 < (seatRecordOf co cands sid info).total_votes →
      (sortDescBy (fun r => r.1) (rankingsOf (seatCbd cands sid) (resultEntries info))).Perm
          (rankingsOf (seatCbd cands sid) (resultEntries info)) ∧
      (sortDescBy (fun r => r.1)
          (rankingsOf (seatCbd cands sid) (resultEntries info))).Pairwise
            (fun a b => b.1 ≤ a.1) ∧
      (∀ v : Int,
        (sortDescBy (fun r => r.1)
            (rankingsOf (seatCbd cands sid) (resultEntries info))).filter
              (fun r => r.1 == v)
          = (rankingsOf (seatCbd cands sid) (resultEntries info)).filter
              (fun r => r.1 == v)) ∧
      (seatRecordOf co cands sid info).top_three
        = String.intercalate ", "
            (((sortDescBy (fun r => r.1)
                (rankingsOf (seatCbd cands sid) (resultEntries info))).take 3).map
              (fmtPartyEntry (seatRecordOf co cands sid info).total_votes)) ∧
      (seatRecordOf co cands sid info).top_three_candidates
        = String.intercalate ", "
            (((sortDescBy (fun r => r.1)
                (rankingsOf (seatCbd cands sid) (resultEntries info))).take 3).map
              (fmtCandEntry (seatRecordOf co cands sid info).total_votes))) ∧
    ((compute_results payloadAB coalAlpha).seat_results.map SeatRecord.total_votes
        = [800] ∧
      (compute_results payloadAB coalAlpha).seat_results.map SeatRecord.coalition_votes
        = [[("alpha", 500)]] ∧
      (compute_results payloadAB coalAlpha).seat_results.map SeatRecord.coalition_ratios
        = [[("alpha", 0.625)]] ∧
      (compute_results payloadAB coalAlpha).seat_results.map SeatRecord.top_three
        = ["Party A (62.5%), Party B (37.5%)"]) := by
  constructor
  · intro co cands sid info hpos
    rw [seatRecordOf_total] at hpos
    have hrk := seatState_rankings co cands ([], []) sid info
    have hne : (seatState co cands ([], []) sid info).candidate_rankings ≠ [] := by
      intro hnil
      have h1 : rankingsOf (seatCbd cands sid) (resultEntries info) = [] := by
        rw [← hrk]; exact hnil
      have h2 : (countedVotes (resultEntries info)).length = 0 := by
        rw [← rankingsOf_length (seatCbd cands sid), h1]; rfl
      have h3 : countedVotes (resultEntries info) = [] := List.length_eq_zero.mp h2
      have h4 := seatState_total co cands ([], []) sid info
      rw [h3] at h4
      simp at h4
      omega
    obtain ⟨ht1, ht2⟩ := seatRecordOf_tops_pos co cands sid info ⟨hne, hpos⟩
    refine ⟨?_, ?_, ?_, ?_, ?_⟩
    · exact sortDescBy_perm _ _
    · exact sortDescBy_sorted _ _
    · exact fun v => sortDescBy_filter _ _ v
    · rw [ht2, hrk, seatRecordOf_total]
    · rw [ht1, hrk, seatRecordOf_total]
  · refine ⟨by decide, by decide, ?_, by decide⟩
    show [[("alpha", if (800 : Int) = 0 then (0 : ℚ)
        else ((500 : Int) : ℚ) / ((800 : Int) : ℚ))]] = [[("alpha", 0.625)]]
    norm_num

/-- C2 witness: the universal part applies to the scenario seat, whose
total is positive. -/
theorem eC2_top_three_witness :
    (sortDescBy (fun r => r.1) (rankingsOf (seatCbd candsAB "s1") (resultEntries seatAB))).Perm
        (rankingsOf (seatCbd candsAB "s1") (resultEntries seatAB)) ∧
    (sortDescBy (fun r => r.1)
        (rankingsOf (seatCbd candsAB "s1") (resultEntries seatAB))).Pairwise
          (fun a b => b.1 ≤ a.1) ∧
    (∀ v : Int,
      (sortDescBy (fun r => r.1)
          (rankingsOf (seatCbd candsAB "s1") (resultEntries seatAB))).filter
            (fun r => r.1 == v)
        = (rankingsOf (seatCbd candsAB "s1") (resultEntries seatAB)).filter
            (fun r => r.1 == v)) ∧
    (seatRecordOf coalAlpha candsAB "s1" seatAB).top_three
      = String.intercalate ", "
          (((sortDescBy (fun r => r.1)
              (rankingsOf (seatCbd candsAB "s1") (resultEntries seatAB))).take 3).map
            (fmtPartyEntry (seatRecordOf coalAlpha candsAB "s1" seatAB).total_votes)) ∧
    (seatRecordOf coalAlpha candsAB "s1" seatAB).top_three_candidates
      = String.intercalate ", "
          (((sortDescBy (fun r => r.1)
              (rankingsOf (seatCbd candsAB "s1") (resultEntries seatAB))).take 3).map
            (fmtCandEntry (seatRecordOf coalAlpha candsAB "s1" seatAB).total_votes)) :=
  eC2_top_three.1 coalAlpha candsAB "s1" seatAB (by decide)

/-- C4 (counterexample): a feature whose display name normalizes to a
non-empty key but matches no seat aggregate does *not* get `seat_name`
attached — only `seat_key`, `ratio = 0.0` and empty `top_three` — so the
claim that the join attaches all four properties to every such feature
is false. -/
theorem eC4_seat_name_not_attached :
    normalize_seat_name (pyStrip ((some "zzz" : Option String).getD "")) ≠ "" ∧
    (annotateFeature [] { cst_n := some "zzz" }).seat_name = none ∧
    (annotateFeature [] { cst_n := some "zzz" }).seat_key = some "zzz" ∧
    (annotateFeature [] { cst_n := some "zzz" }).ratio = some 0 ∧
    (annotateFeature [] { cst_n := some "zzz" }).top_three = some "" :=
  ⟨by decide, rfl, rfl, rfl, rfl⟩

/-- C4 (amended): every feature whose display name normalizes to a
non-empty key receives `seat_key`, `ratio` and `top_three`; `seat_name`
is additionally attached when a matching seat aggregate exists, and with
no match the feature receives ratio 0.0 and empty top-three text while
its `seat_name` property is left unchanged; the join is a total function
and never fails. -/
theorem eC4_join_attach (sd : List (String × SeatData)) (f : FeatProps)
    (hk : normalize_seat_name (pyStrip (f.cst_n.getD "")) ≠ "") :
    (annotateFeature sd f).seat_key
        = some (normalize_seat_name (pyStrip (f.cst_n.getD ""))) ∧
    (∀ d, seatDataGet sd (normalize_seat_name (pyStrip (f.cst_n.getD ""))) = some d →
      (annotateFeature sd f).ratio = some d.ratio ∧
      (annotateFeature sd f).top_three = some d.top_three ∧
      (annotateFeature sd f).seat_name = some d.seat_name) ∧
    (seatDataGet sd (normalize_seat_name (pyStrip (f.cst_n.getD ""))) = none →
      (annotateFeature sd f).ratio = some 0 ∧
      (annotateFeature sd f).top_three = some "" ∧
      (annotateFeature sd f).seat_name = f.seat_name) := by
  unfold annotateFeature
  rw [if_neg hk]
  rcases hd : seatDataGet sd (normalize_seat_name (pyStrip (f.cst_n.getD ""))) with _ | d
  · refine ⟨rfl, ?_, ?_⟩
    · intro d hd'
      cases hd'
    · intro _
      exact ⟨rfl, rfl, rfl⟩
  · refine ⟨rfl, ?_, ?_⟩
    · intro d' hd'
      cases hd'
      exact ⟨rfl, rfl, rfl⟩
    · intro h
      cases h

/-- C4 witness: the amended join behaviour at a concrete unmatched
feature. -/
theorem eC4_join_attach_witness :
    (annotateFeature [] { cst_n := some "zzz" }).seat_key
        = some (normalize_seat_name (pyStrip (((
          { cst_n := some "zzz" } : FeatProps)).cst_n.getD ""))) ∧
    (∀ d, seatDataGet []
        (normalize_seat_name (pyStrip ((({ cst_n := some "zzz" } : FeatProps)).cst_n.getD "")))
          = some d →
      (annotateFeature [] { cst_n := some "zzz" }).ratio = some d.ratio ∧
      (annotateFeature [] { cst_n := some "zzz" }).top_three = some d.top_three ∧
      (annotateFeature [] { cst_n := some "zzz" }).seat_name = some d.seat_name) ∧
    (seatDataGet []
        (normalize_seat_name (pyStrip ((({ cst_n := some "zzz" } : FeatProps)).cst_n.getD "")))
          = none →
      (annotateFeature [] { cst_n := some "zzz" }).ratio = some 0 ∧
      (annotateFeature [] { cst_n := some "zzz" }).top_three = some "" ∧
      (annotateFeature [] { cst_n := some "zzz" }).seat_name
        = ({ cst_n := some "zzz" } : FeatProps).seat_name) :=
  eC4_join_attach [] { cst_n := some "zzz" } (by decide)

/-! ### Lemmas for the extractor -/

theorem firstPrefixPos_eq (pat : List Char) :
    ∀ (m : Nat) (l : List Char),
      (∀ j < m, pat.isPrefixOf (l.drop j) = false) →
      pat.isPrefixOf (l.drop m) = true →
      firstPrefixPos pat l = some m := by
  intro m
  induction m with
  | zero =>
    intro l _ h0
    cases l with
    | nil =>
      rw [List.drop_nil] at h0
      simp only [firstPrefixPos]
      rw [h0]
      rfl
    | cons c cs =>
      rw [show (c :: cs).drop 0 = c :: cs from rfl] at h0
      simp only [firstPrefixPos]
      rw [h0]
      rfl
  | succ m ih =>
    intro l hj hm
    cases l with
    | nil =>
      have h0 := hj 0 (by omega)
      rw [List.drop_nil] at h0
      rw [List.drop_nil] at hm
      rw [h0] at hm
      cases hm
    | cons c cs =>
      have h0 : pat.isPrefixOf (c :: cs) = false := by
        have := hj 0 (by omega)
        rwa [show (c :: cs).drop 0 = c :: cs from rfl] at this
      simp only [firstPrefixPos]
      rw [h0]
      rw [show (if false = true then some 0
          else Option.map (fun x => x + 1) (firstPrefixPos pat cs))
        = Option.map (fun x => x + 1) (firstPrefixPos pat cs) from rfl]
      rw [ih cs
        (fun j hjm => by
          have := hj (j + 1) (by omega)
          rwa [show (c :: cs).drop (j + 1) = cs.drop j from rfl] at this)
        (by rwa [show (c :: cs).drop (m + 1) = cs.drop m from rfl] at hm)]
      rfl

theorem firstPrefixPos_single (c : Char) (w : List Char) :
    ∀ u : List Char, c ∉ u → firstPrefixPos [c] (u ++ c :: w) = some u.length := by
  intro u
  induction u with
  | nil =>
    intro _
    have hp : [c].isPrefixOf (c :: w) = true := by simp [List.isPrefixOf]
    simp only [List.nil_append, firstPrefixPos]
    rw [hp]
    rfl
  | cons d u' ih =>
    intro hc
    have hne : c ≠ d := fun h => hc (by simp [h])
    have hdc : [c].isPrefixOf (d :: (u' ++ c :: w)) = false := by
      simp only [List.isPrefixOf, Bool.and_eq_false_iff]
      left
      simpa using hne
    rw [List.cons_append]
    simp only [firstPrefixPos]
    rw [hdc]
    rw [show (if false = true then some 0
        else Option.map (fun x => x + 1) (firstPrefixPos [c] (u' ++ c :: w)))
      = Option.map (fun x => x + 1) (firstPrefixPos [c] (u' ++ c :: w)) from rfl]
    rw [ih (fun h => hc (List.mem_cons_of_mem _ h))]
    rfl

theorem pyFindFrom_ofNat (s pat : List Char) (b : Nat) (hb : b ≤ s.length) (m : Nat)
    (h : firstPrefixPos pat (s.drop b) = some m) :
    pyFindFrom s pat (b : Int) = ((b + m : Nat) : Int) := by
  unfold pyFindFrom pySliceIdx
  rw [if_neg (by omega)]
  rw [show ((b : Int)).toNat = b from rfl, min_eq_left hb]
  dsimp only
  rw [h]

theorem braceScan_balanced (post : List Char) :
    ∀ (body : List Char) (idx d : Int),
      d + braceBal body = 1 →
      (∀ n ≤ body.length, 1 ≤ d + braceBal (body.take n)) →
      braceScan (body ++ '}' :: post) idx d = some (idx + body.length) := by
  intro body
  induction body with
  | nil =>
    intro idx d h1 _
    have hd1 : d = 1 := by simpa [braceBal] using h1
    subst hd1
    simp [braceScan]
  | cons c b' ih =>
    intro idx d h1 h2
    have hδ : braceBal [c] = (if c = '{' then 1 else if c = '}' then -1 else 0) := by
      simp [braceBal]
    have hstep : 1 ≤ d + (if c = '{' then 1 else if c = '}' then -1 else 0) := by
      have := h2 1 (by simp)
      rw [show (c :: b').take 1 = [c] from rfl, hδ] at this
      exact this
    have hred : braceScan (c :: b' ++ '}' :: post) idx d
        = if (if c = '{' then d + 1 else if c = '}' then d - 1 else d) = 0 then some idx
          else braceScan (b' ++ '}' :: post) (idx + 1)
            (if c = '{' then d + 1 else if c = '}' then d - 1 else d) := by
      rfl
    have hδ2 : (if c = '{' then d + 1 else if c = '}' then d - 1 else d)
        = d + (if c = '{' then 1 else if c = '}' then -1 else 0) := by
      by_cases h1' : c = '{'
      · simp [h1']
      · by_cases h2' : c = '}'
        · simp [h1', h2']
          omega
        · simp [h1', h2']
    rw [hred, hδ2, if_neg (by omega)]
    rw [ih (idx + 1) (d + (if c = '{' then 1 else if c = '}' then -1 else 0))
      (by rw [show braceBal (c :: b') = (if c = '{' then 1 else if c = '}' then -1 else 0)
            + braceBal b' from rfl] at h1
          omega)
      (by intro n hn
          have := h2 (n + 1) (by simpa using hn)
          rw [show (c :: b').take (n + 1) = c :: b'.take n from rfl,
            show braceBal (c :: b'.take n) = (if c = '{' then 1 else if c = '}' then -1 else 0)
              + braceBal (b'.take n) from rfl] at this
          omega)]
    congr 1
    simp only [List.length_cons]
    push_cast
    ring

theorem slice_middle (A B C : List Char) :
    ((A ++ B ++ C).take (A.length + B.length)).drop A.length = B := by
  rw [List.take_left' (by rw [List.length_append])]
  rw [List.drop_left]

theorem pySliceIdx_ofNat (n k : Nat) (h : k ≤ n) : pySliceIdx n (k : Int) = k := by
  unfold pySliceIdx
  rw [if_neg (by omega)]
  rw [show ((k : Int)).toNat = k from rfl, min_eq_left h]

theorem findScript_none (scripts : List (Option String))
    (h : ∀ os ∈ scripts, ∀ s : String, os = some s →
      containsSub electionKey s.toList = false) :
    findScript scripts = none := by
  induction scripts with
  | nil => rfl
  | cons os rest ih =>
    cases os with
    | none => exact ih fun o ho s hs => h o (by simp [ho]) s hs
    | some s =>
      have hs := h (some s) (by simp) s rfl
      unfold findScript
      rw [if_neg (fun hcon => absurd hcon.2 (by simpa using hs))]
      exact ih fun o ho s' hs' => h o (by simp [ho]) s' hs'

/-- C5: (1) when no script block's content contains the quoted key
`"election2026"`, the extractor fails with the key-not-found error and
returns no other output; (2) on markup whose selected script consists of
the key, a first colon after it, a first brace after that, and a
balanced brace object, the extractor slices exactly that object and
returns its decoded value when decoding succeeds, or fails with the
malformed-JSON error when decoding fails. -/
theorem eC5_extractor :
    (∀ (J : Type) (decode : List Char → Option J) (scripts : List (Option String)),
      (∀ os ∈ scripts, ∀ s : String, os = some s →
        containsSub electionKey s.toList = false) →
      extract_election_data decode scripts = .error .keyNotFoundInAnyBlock) ∧
    (∀ (J : Type) (decode : List Char → Option J) (scripts : List (Option String))
       (sc pre mid mid2 body post : List Char),
      findScript scripts = some sc →
      sc = pre ++ electionKey ++ mid ++ ':' :: mid2 ++ '{' :: (body ++ '}' :: post) →
      (∀ j < pre.length, electionKey.isPrefixOf (sc.drop j) = false) →
      ':' ∉ mid → '{' ∉ mid2 → BalancedBody body →
      extract_election_data decode scripts
        = match decode ('{' :: body ++ ['}']) with
          | some v => .ok v
          | none => .error .malformedJson) := by
  constructor
  · intro J decode scripts h
    unfold extract_election_data
    rw [findScript_none scripts h]
  · intro J decode scripts sc pre mid mid2 body post hfind ht hpre hmid hmid2 hbal
    obtain ⟨hbal1, hbal2⟩ := hbal
    have hlen := congrArg List.length ht
    simp only [List.length_append, List.length_cons] at hlen
    have hsc1 : sc = pre
        ++ (electionKey ++ (mid ++ (':' :: mid2 ++ '{' :: (body ++ '}' :: post)))) := by
      rw [ht]; simp [List.append_assoc, List.cons_append]
    have hsc2 : sc = (pre ++ (electionKey ++ mid))
        ++ ':' :: (mid2 ++ '{' :: (body ++ '}' :: post)) := by
      rw [ht]; simp [List.append_assoc, List.cons_append]
    have hsc3 : sc = ((pre ++ (electionKey ++ mid)) ++ ':' :: mid2 ++ ['{'])
        ++ (body ++ '}' :: post) := by
      rw [ht]; simp [List.append_assoc, List.cons_append]
    have hsc4 : sc = (((pre ++ (electionKey ++ mid)) ++ ':' :: mid2)
        ++ ('{' :: body ++ ['}'])) ++ post := by
      rw [ht]; simp [List.append_assoc, List.cons_append]
    -- locate the key
    have hfk : firstPrefixPos electionKey (sc.drop 0) = some pre.length := by
      rw [List.drop_zero]
      apply firstPrefixPos_eq electionKey pre.length sc hpre
      rw [hsc1, List.drop_left]
      simp
    have hstart : pyFindFrom sc electionKey 0 = (pre.length : Int) := by
      simpa using pyFindFrom_ofNat sc electionKey 0 (by omega) pre.length
        (by simpa using hfk)
    -- locate the colon
    have hfc : firstPrefixPos [':'] (sc.drop pre.length)
        = some (electionKey.length + mid.length) := by
      have hdrop : sc.drop pre.length
          = (electionKey ++ mid) ++ ':' :: (mid2 ++ '{' :: (body ++ '}' :: post)) := by
        rw [hsc1, List.drop_left]
        simp [List.append_assoc, List.cons_append]
      rw [hdrop]
      rw [firstPrefixPos_single ':' _ (electionKey ++ mid)
        (fun hin => by
          rcases List.mem_append.mp hin with h | h
          · exact absurd h (by decide)
          · exact hmid h)]
      rw [List.length_append]
    have hcolon : pyFindFrom sc [':'] (pre.length : Int)
        = ((pre.length + (electionKey.length + mid.length) : Nat) : Int) :=
      pyFindFrom_ofNat sc [':'] pre.length (by omega) _ hfc
    -- locate the brace
    have hfb : firstPrefixPos ['{']
          (sc.drop (pre.length + (electionKey.length + mid.length)))
        = some (mid2.length + 1) := by
      rw [hsc2, List.drop_left' (by simp [List.length_append])]
      rw [show (':' :: (mid2 ++ '{' :: (body ++ '}' :: post)))
          = (':' :: mid2) ++ '{' :: (body ++ '}' :: post) from by
        simp [List.cons_append]]
      rw [firstPrefixPos_single '{' _ (':' :: mid2)
        (fun hin => by
          rcases List.mem_cons.mp hin with h | h
          · exact absurd h (by decide)
          · exact hmid2 h)]
      rw [List.length_cons]
    have hbrace : pyFindFrom sc ['{']
          ((pre.length + (electionKey.length + mid.length) : Nat) : Int)
        = ((pre.length + (electionKey.length + mid.length) + (mid2.length + 1) : Nat) : Int) :=
      pyFindFrom_ofNat sc ['{'] _ (by omega) _ hfb
    -- run the extractor
    unfold extract_election_data
    rw [hfind]
    dsimp only
    rw [hstart]
    rw [if_neg (show ¬((pre.length : Int) = -1) by omega)]
    rw [hcolon, hbrace]
    rw [show ((pre.length + (electionKey.length + mid.length) + (mid2.length + 1) : Nat) : Int) + 1
        = ((pre.length + (electionKey.length + mid.length) + (mid2.length + 1) + 1 : Nat) : Int)
      from by push_cast; ring]
    rw [pySliceIdx_ofNat sc.length
      (pre.length + (electionKey.length + mid.length) + (mid2.length + 1) + 1) (by omega)]
    rw [show sc.drop (pre.length + (electionKey.length + mid.length) + (mid2.length + 1) + 1)
        = body ++ '}' :: post from by
      rw [hsc3, List.drop_left' (by simp [List.length_append, List.length_cons]; omega)]]
    rw [braceScan_balanced post body
      ((pre.length + (electionKey.length + mid.length) + (mid2.length + 1) + 1 : Nat) : Int) 1
      (by omega) (fun n hn => by have := hbal2 n hn; omega)]
    dsimp only
    rw [show ((pre.length + (electionKey.length + mid.length) + (mid2.length + 1) + 1 : Nat) : Int)
          + (body.length : Int) + 1
        = ((pre.length + (electionKey.length + mid.length) + (mid2.length + 1) + 1
            + body.length + 1 : Nat) : Int)
      from by push_cast; ring]
    rw [pySliceIdx_ofNat sc.length
      (pre.length + (electionKey.length + mid.length) + (mid2.length + 1) + 1 + body.length + 1)
      (by omega)]
    rw [pySliceIdx_ofNat sc.length
      (pre.length + (electionKey.length + mid.length) + (mid2.length + 1)) (by omega)]
    rw [show (sc.take (pre.length + (electionKey.length + mid.length) + (mid2.length + 1) + 1
          + body.length + 1)).drop
            (pre.length + (electionKey.length + mid.length) + (mid2.length + 1))
        = '{' :: body ++ ['}'] from by
      have hA : ((pre ++ (electionKey ++ mid)) ++ ':' :: mid2).length
          = pre.length + (electionKey.length + mid.length) + (mid2.length + 1) := by
        simp [List.length_append, List.length_cons]
        omega
      rw [hsc4, ← hA]
      rw [show ((pre ++ (electionKey ++ mid)) ++ ':' :: mid2).length + 1 + body.length + 1
          = ((pre ++ (electionKey ++ mid)) ++ ':' :: mid2).length
            + ('{' :: body ++ ['}']).length from by
        simp [List.length_append, List.length_cons]
        omega]
      exact slice_middle _ _ _]

set_option maxHeartbeats 1000000 in
/-- C5 witness: the extractor fails with the key-not-found error on
markup without the key, and returns the decoded balanced object on a
concrete well-formed script. -/
theorem eC5_extractor_witness :
    extract_election_data (fun l => some (String.mk l)) [some "hello", none]
        = .error .keyNotFoundInAnyBlock ∧
    extract_election_data (fun l => some (String.mk l))
        [some "var x = \x7b\"election2026\": \x7b\"a\": 1\x7d\x7d;"]
      = match (fun l => some (String.mk l)) ('{' :: "\"a\": 1".toList ++ ['}']) with
        | some v => .ok v
        | none => .error .malformedJson :=
  ⟨eC5_extractor.1 String (fun l => some (String.mk l)) [some "hello", none]
      (by decide),
   eC5_extractor.2 String (fun l => some (String.mk l))
      [some "var x = \x7b\"election2026\": \x7b\"a\": 1\x7d\x7d;"]
      ("var x = \x7b\"election2026\": \x7b\"a\": 1\x7d\x7d;".toList)
      ("var x = \x7b".toList) [] [' '] ("\"a\": 1".toList) ("\x7d;".toList)
      (by decide) (by decide) (by decide) (by decide) (by decide)
      ⟨by decide, by decide⟩⟩

end ElectionMap
